import Mathlib

/-!
Verification of the PPO training-loop core (baselines/ppo2/ppo2.py).

We give a shallow embedding of the parts of `learn` that the claims
concern: the safe mean, the minibatch index schedulers (stateless and
recurrent), the curriculum schedule functions, the model-selection and
early-stopping state machine, and the order of events around the
batch-divisibility configuration check.  Reward values are modelled as
rationals; the float NaN sentinel is made explicit by the type `FVal`.
-/

namespace PPO2

/-- A float value as it appears in the episode statistics of `learn`:
either the NaN sentinel or a finite value, modelled as a rational. -/
inductive FVal where
  | nan : FVal
  | fin (q : ℚ) : FVal
deriving DecidableEq, Repr

/-- `safemean` (ppo2.py lines 490-491): `np.nan` if the input is empty,
otherwise the arithmetic mean `np.mean(xs)` of the elements. -/
def safemean (xs : List ℚ) : FVal :=
  if xs.length = 0 then FVal.nan else FVal.fin (xs.sum / (xs.length : ℚ))

/-- Float division as Python performs it in `eprewmean / eplenmean`
(line 163): a zero finite denominator raises ZeroDivisionError
(modelled as `none`); otherwise NaN in either operand propagates to a
NaN result, and finite values divide exactly. -/
def fdiv (a b : FVal) : Option FVal :=
  match a, b with
  | _, FVal.nan => some FVal.nan
  | FVal.nan, FVal.fin y => if y = 0 then none else some FVal.nan
  | FVal.fin x, FVal.fin y => if y = 0 then none else some (FVal.fin (x / y))

/-- The float comparison `a > b`: every comparison involving NaN is
false, finite values compare as rationals. -/
def fgt (a b : FVal) : Bool :=
  match a, b with
  | FVal.fin x, FVal.fin y => decide (x > y)
  | _, _ => false

/-- One episode-info record, keeping the fields that the early-stopping
branch of `learn` reads. -/
structure EpInfo where
  r : ℚ
  ep_length : ℚ
deriving DecidableEq, Repr

/-- Lines 161-163 of `learn`: `eplenmean` and `eprewmean` are safe means
over the rollout's episode infos and `rew_per_step = eprewmean / eplenmean`
(a `none` result models a raised division error). -/
def rewPerStep (epinfos : List EpInfo) : Option FVal :=
  fdiv (safemean (epinfos.map EpInfo.r)) (safemean (epinfos.map EpInfo.ep_length))

/-- Lines 167-173 of `learn`: the best-model checkpoint is written this
update exactly when `rew_per_step > best_rew_per_step and early_stopping`. -/
def bestModelSaved (epinfos : List EpInfo) (bestRewPerStep : FVal)
    (earlyStopping : Bool) : Option Bool :=
  match rewPerStep epinfos with
  | none => none
  | some rps => some (fgt rps bestRewPerStep && earlyStopping)

/-- C9: the safe mean of an empty list is the NaN sentinel rather than an
error, and the safe mean of any non-empty list is the arithmetic mean of
its elements. -/
theorem claim_C9_safemean_empty_nan_nonempty_mean (xs : List ℚ) (hxs : xs ≠ []) :
    safemean ([] : List ℚ) = FVal.nan ∧
    safemean xs = FVal.fin (xs.sum / (xs.length : ℚ)) := by
  constructor
  · rfl
  · have hlen : xs.length ≠ 0 := by
      simpa [List.length_eq_zero] using hxs
    simp [safemean, hlen]

/-- Witness for C9 at the concrete non-empty list `[3, 5]`. -/
theorem claim_C9_witness :
    safemean ([] : List ℚ) = FVal.nan ∧
    safemean [(3 : ℚ), 5] = FVal.fin (((3 : ℚ) + (5 + 0)) / ((2 : ℕ) : ℚ)) :=
  claim_C9_safemean_empty_nan_nonempty_mean [(3 : ℚ), 5] (by decide)

/-- C10: at an update whose rollout completes zero episodes, the episode
reward mean and episode length mean are both the NaN sentinel, the
reward-per-step quotient is NaN without a division error, the comparison
against the running best is false, and hence no best-model checkpoint is
written, for every current best value and early-stopping setting. -/
theorem claim_C10_zero_episodes_no_checkpoint (best : FVal) (es : Bool) :
    safemean (([] : List EpInfo).map EpInfo.r) = FVal.nan ∧
    safemean (([] : List EpInfo).map EpInfo.ep_length) = FVal.nan ∧
    rewPerStep [] = some FVal.nan ∧
    fgt FVal.nan best = false ∧
    bestModelSaved [] best es = some false := by
  refine ⟨rfl, rfl, rfl, ?_, ?_⟩
  · cases best <;> rfl
  · cases best <;> simp [bestModelSaved, rewPerStep, fdiv, safemean, fgt]

/-! ## Minibatch scheduler (ppo2.py lines 180-208) -/

/-- The start offsets `range(0, nbatch, nbatch_train)` of the minibatch
slices (line 189): a Python range with positive step `b` from 0 to
`nbatch` has `⌈nbatch / b⌉` elements `0, b, 2b, …`. -/
def sliceStarts (nbatch nbatchTrain : ℕ) : List ℕ :=
  List.range' 0 ((nbatch + nbatchTrain - 1) / nbatchTrain) nbatchTrain

/-- Lines 189-191 (and the recurrent analogue, lines 202-204): the
minibatches of one optimisation epoch, each the slice
`inds[start:start + nbatch_train]` of the shuffled index array. -/
def minibatches (inds : List ℕ) (nbatch nbatchTrain : ℕ) : List (List ℕ) :=
  (sliceStarts nbatch nbatchTrain).map (fun start => (inds.drop start).take nbatchTrain)

/-- Joining consecutive width-`b` slices taken at offsets
`s, s+b, …, s+(m-1)b` recovers the corresponding segment of the list. -/
theorem join_range'_slices (b : ℕ) :
    ∀ (m s : ℕ) (l : List ℕ),
      ((List.range' s m b).map (fun st => (l.drop st).take b)).flatten
        = (l.drop s).take (m * b) := by
  intro m
  induction m with
  | zero => intro s l; simp
  | succ m ih =>
    intro s l
    rw [List.range'_succ, List.map_cons, List.flatten_cons, ih (s + b) l]
    have hmul : (m + 1) * b = b + m * b := by ring
    rw [hmul, List.take_add]
    have hdd : (l.drop s).drop b = l.drop (s + b) := by
      rw [List.drop_drop]
    rw [hdd]

/-- With `nminibatches ∣ nbatch`, the slices of one epoch concatenate
back to the whole shuffled index array. -/
theorem minibatches_join (inds : List ℕ) (nbatch nmini : ℕ)
    (hlen : inds.length = nbatch) (hmod : nbatch % nmini = 0)
    (h0 : 0 < nmini) (hb : 0 < nbatch) :
    (minibatches inds nbatch (nbatch / nmini)).flatten = inds := by
  have hdvd : nmini ∣ nbatch := Nat.dvd_of_mod_eq_zero hmod
  have hbt : 0 < nbatch / nmini := Nat.div_pos (Nat.le_of_dvd hb hdvd) h0
  have hmul : nbatch / nmini * nmini = nbatch := Nat.div_mul_cancel hdvd
  have hcount : (nbatch + nbatch / nmini - 1) / (nbatch / nmini) = nmini := by
    have h1 : nbatch + nbatch / nmini - 1
        = nbatch / nmini * nmini + (nbatch / nmini - 1) := by omega
    rw [h1, Nat.mul_add_div hbt]
    have h2 : (nbatch / nmini - 1) / (nbatch / nmini) = 0 :=
      Nat.div_eq_of_lt (by omega)
    omega
  unfold minibatches sliceStarts
  rw [hcount, join_range'_slices (nbatch / nmini) nmini 0 inds]
  rw [List.drop_zero, Nat.mul_comm, hmul, ← hlen, List.take_length]

/-- C1: in the stateless minibatch path, for every valid configuration
with `nbatch % nminibatches = 0` and for every optimisation epoch, the
minibatches obtained by slicing the epoch's shuffled index array into
contiguous chunks of size `nbatch / nminibatches` partition the index
range `[0, nbatch)` exactly: their concatenation is a permutation of
`range nbatch`, every index below `nbatch` occurs exactly once in it,
and no other index occurs, independently for each epoch. -/
theorem claim_C1_minibatch_partition (nbatch nmini noptepochs : ℕ)
    (epochInds : List (List ℕ))
    (_hep : epochInds.length = noptepochs)
    (hperm : ∀ p ∈ epochInds, p.Perm (List.range nbatch))
    (hmod : nbatch % nmini = 0) (h0 : 0 < nmini) (hb : 0 < nbatch) :
    ∀ p ∈ epochInds,
      ((minibatches p nbatch (nbatch / nmini)).flatten).Perm (List.range nbatch) ∧
      (∀ i < nbatch, ((minibatches p nbatch (nbatch / nmini)).flatten).count i = 1) ∧
      (∀ i, nbatch ≤ i → ((minibatches p nbatch (nbatch / nmini)).flatten).count i = 0) := by
  intro p hp
  have hP := hperm p hp
  have hlen : p.length = nbatch := by simpa using hP.length_eq
  have hj : (minibatches p nbatch (nbatch / nmini)).flatten = p :=
    minibatches_join p nbatch nmini hlen hmod h0 hb
  rw [hj]
  refine ⟨hP, ?_, ?_⟩
  · intro i hi
    rw [hP.count_eq]
    exact List.nodup_iff_count_eq_one.mp (List.nodup_range nbatch) i
      (List.mem_range.mpr hi)
  · intro i hi
    rw [hP.count_eq]
    exact List.count_eq_zero.mpr (by simp; omega)

/-- Two concrete shuffled epochs over `nbatch = 4`. -/
def epochIndsW : List (List ℕ) := [[2, 0, 3, 1], [1, 3, 0, 2]]

/-- Witness for C1: `nbatch = 4`, `nminibatches = 2`, the first of two
epochs, evaluated at the indices 2 (inside the range) and 7 (outside). -/
theorem claim_C1_witness :
    ((minibatches [2, 0, 3, 1] 4 (4 / 2)).flatten).Perm (List.range 4) ∧
    ((minibatches [2, 0, 3, 1] 4 (4 / 2)).flatten).count 2 = 1 ∧
    ((minibatches [2, 0, 3, 1] 4 (4 / 2)).flatten).count 7 = 0 :=
  have h := claim_C1_minibatch_partition 4 2 2 epochIndsW rfl (by decide)
    (by decide) (by decide) (by decide) [2, 0, 3, 1] (by decide)
  ⟨h.1, h.2.1 2 (by decide), h.2.2 7 (by decide)⟩

/-- `np.arange(nenvs * nsteps).reshape(nenvs, nsteps)` (line 199): row
`e` holds the `e`-th run of `nsteps` consecutive flat indices. -/
def flatinds (nenvs nsteps : ℕ) : List (List ℕ) :=
  (List.range nenvs).map
    (fun e => ((List.range (nenvs * nsteps)).drop (e * nsteps)).take nsteps)

/-- `flatinds[mbenvinds].ravel()` (line 205): select the rows of the
chosen environments and flatten. -/
def mbflatinds (nenvs nsteps : ℕ) (mbenvinds : List ℕ) : List ℕ :=
  (mbenvinds.map (fun e => (flatinds nenvs nsteps).getD e [])).flatten

/-- `states[mbenvinds]` (line 207): the recurrent-state snapshots of the
selected environments, the state array modelled per environment index. -/
def mbstates {σ : Type} (states : ℕ → σ) (mbenvinds : List ℕ) : List σ :=
  mbenvinds.map states

/-- Taking `s` entries of `range (n * s)` from offset `e * s` yields the
contiguous window `range' (e * s) s`. -/
theorem take_drop_range (n s e : ℕ) (he : e < n) :
    ((List.range (n * s)).drop (e * s)).take s = List.range' (e * s) s := by
  have hes : e * s + s ≤ n * s := by
    have h1 : (e + 1) * s ≤ n * s := Nat.mul_le_mul_right s he
    rwa [Nat.succ_mul] at h1
  have hsplit : List.range (n * s)
      = List.range' 0 (e * s) ++ List.range' (e * s) (n * s - e * s) := by
    rw [List.range_eq_range']
    have h := List.range'_append_1 0 (e * s) (n * s - e * s)
    have h2 : 0 + e * s = e * s := by omega
    have h3 : n * s - e * s + e * s = n * s := by omega
    rw [h2, h3] at h
    exact h.symm
  rw [hsplit, List.drop_left' (by simp)]
  have hsplit2 : List.range' (e * s) (n * s - e * s)
      = List.range' (e * s) s ++ List.range' (e * s + s) (n * s - e * s - s) := by
    have h := List.range'_append_1 (e * s) s (n * s - e * s - s)
    have h3 : n * s - e * s - s + s = n * s - e * s := by omega
    rw [h3] at h
    exact h.symm
  rw [hsplit2, List.take_left' (by simp)]

/-- Row lookup in the reshaped index matrix. -/
theorem flatinds_getD (nenvs nsteps e : ℕ) (he : e < nenvs) :
    (flatinds nenvs nsteps).getD e [] = List.range' (e * nsteps) nsteps := by
  unfold flatinds
  rw [List.getD_eq_get?, List.get?_map, List.get?_range he]
  simp [take_drop_range nenvs nsteps e he]

/-- C4: in the recurrent minibatch path with `nenvs % nminibatches = 0`,
the minibatches are built by shuffling environment indices (a
permutation of `range nenvs`, partitioned exactly by the slices), and
every minibatch's flat indices are the concatenation of the contiguous
per-environment windows `[e*nsteps, (e+1)*nsteps)` of its selected
environments, while its recurrent state snapshot is exactly the states
of those environments. -/
theorem claim_C4_recurrent_minibatches (nenvs nsteps nmini : ℕ)
    (envinds : List ℕ) (states : ℕ → ℚ)
    (hperm : envinds.Perm (List.range nenvs))
    (hmod : nenvs % nmini = 0) (h0 : 0 < nmini) (hne : 0 < nenvs) :
    ((minibatches envinds nenvs (nenvs / nmini)).flatten).Perm (List.range nenvs) ∧
    ∀ mb ∈ minibatches envinds nenvs (nenvs / nmini),
      mbflatinds nenvs nsteps mb
        = (mb.map (fun e => List.range' (e * nsteps) nsteps)).flatten ∧
      mbstates states mb = mb.map states := by
  constructor
  · rw [minibatches_join envinds nenvs nmini (by simpa using hperm.length_eq)
      hmod h0 hne]
    exact hperm
  · intro mb hmb
    have hmem : ∀ e ∈ mb, e < nenvs := by
      intro e he
      obtain ⟨st, _, rfl⟩ := List.mem_map.mp hmb
      have h1 : e ∈ envinds := List.mem_of_mem_drop (List.mem_of_mem_take he)
      have h2 := hperm.mem_iff.mp h1
      simpa using h2
    refine ⟨?_, rfl⟩
    unfold mbflatinds
    congr 1
    apply List.map_congr_left
    intro e he
    exact flatinds_getD nenvs nsteps e (hmem e he)

/-- Witness for C4: `nenvs = 4`, `nsteps = 3`, `nminibatches = 2`, a
concrete shuffled environment order. -/
theorem claim_C4_witness :
    ((minibatches [2, 0, 3, 1] 4 (4 / 2)).flatten).Perm (List.range 4) ∧
    mbflatinds 4 3 [2, 0]
      = ([2, 0].map (fun e => List.range' (e * 3) 3)).flatten ∧
    mbstates (fun e => (e : ℚ)) [2, 0]
      = [2, 0].map (fun (e : ℕ) => (e : ℚ)) :=
  have h := claim_C4_recurrent_minibatches 4 3 2 [2, 0, 3, 1]
    (fun e => (e : ℚ)) (by decide) (by decide) (by decide) (by decide)
  ⟨h.1, (h.2 [2, 0] (by decide)).1, (h.2 [2, 0] (by decide)).2⟩

/-! ## Curriculum controllers (ppo2.py lines 350-402) -/

/-- The reward-shaping annealing `fn` (lines 358-363), with
`annealing_thresh` hardcoded to 0 (line 356) and
`annealing_horizon = REW_SHAPING_HORIZON` (line 355). -/
def rewShapingFn (annealingHorizon x : ℚ) : ℚ :=
  let annealingThresh : ℚ := 0
  if annealingThresh ≠ 0 ∧ annealingThresh - annealingHorizon / annealingThresh * x > 1
  then 1
  else max (-1 * (x - annealingThresh) * 1 / (annealingHorizon - annealingThresh) + 1) 0

/-- The piecewise-linear self-play `fn` (lines 393-398), parameterised by
the configured pair `(self_play_thresh, self_play_timeline)`. -/
def selfPlayLinearFn (selfPlayThresh selfPlayTimeline x : ℚ) : ℚ :=
  if selfPlayThresh ≠ 0 ∧
      selfPlayTimeline - selfPlayTimeline / selfPlayThresh * x > 1
  then 1
  else max (-1 * (x - selfPlayThresh) * 1 / (selfPlayTimeline - selfPlayThresh) + 1) 0

/-- The sigmoidal self-play `fn` (lines 378-381): with
`shift = rew_target / 2` and `t = (1 / rew_target) * 10`, the value is
`1 - exp(t * (x - shift)) / (1 + exp(t * (x - shift)))`. -/
noncomputable def selfPlaySigmoidFn (rewTarget x : ℝ) : ℝ :=
  let shift := rewTarget / 2
  let t := 1 / rewTarget * 10
  (-1) * (Real.exp (t * (x - shift)) / (1 + Real.exp (t * (x - shift)))) + 1

/-- C3 counterexample: the piecewise-linear self-play schedule is not
clamped into `[0, 1]`.  With the valid configuration
`self_play_thresh = 21/2`, `self_play_timeline = 20` (threshold below
horizon, both positive) and the reachable timestep `x = 10` (one update
of batch size 10), the first branch is not taken and the output is
`20/19 > 1`. -/
theorem claim_C3_counterexample :
    selfPlayLinearFn (21 / 2) 20 10 = 20 / 19 ∧
    ¬ selfPlayLinearFn (21 / 2) 20 10 ≤ 1 := by
  constructor
  · rw [selfPlayLinearFn, if_neg]
    · rw [max_eq_left (by norm_num)]
      norm_num
    · rintro ⟨-, h⟩
      norm_num at h
  · rw [selfPlayLinearFn, if_neg]
    · rw [max_eq_left (by norm_num)]
      norm_num
    · rintro ⟨-, h⟩
      norm_num at h

/-- C3 (amended): the reward-shaping coefficient lies in `[0, 1]` for
every nonnegative timestep and positive horizon; the sigmoidal
self-play ratio lies in `[0, 1]` for every performance input and target;
the piecewise-linear self-play ratio is always nonnegative and lies in
`[0, 1]` for every timestep at or past the configured threshold (with
threshold below the timeline) — but, per the counterexample, it may
exceed 1 at timesteps just below a fractional threshold. -/
theorem claim_C3_schedule_bounds (h x : ℚ) (hh : 0 < h) (hx : 0 ≤ x)
    (thresh timeline y : ℚ) (hty : thresh < timeline) (hyt : thresh ≤ y)
    (target z : ℝ) :
    (0 ≤ rewShapingFn h x ∧ rewShapingFn h x ≤ 1) ∧
    (0 ≤ selfPlaySigmoidFn target z ∧ selfPlaySigmoidFn target z ≤ 1) ∧
    (0 ≤ selfPlayLinearFn thresh timeline y ∧
      selfPlayLinearFn thresh timeline y ≤ 1) := by
  refine ⟨?_, ?_, ?_⟩
  · have e1 : rewShapingFn h x = max (1 - x / h) 0 := by
      rw [rewShapingFn, if_neg (by simp)]
      congr 1
      ring
    have hxh : 0 ≤ x / h := div_nonneg hx hh.le
    rw [e1]
    exact ⟨le_max_right _ _, max_le (by linarith) (by norm_num)⟩
  · set w := 1 / target * 10 * (z - target / 2) with hw
    have hE : 0 < Real.exp w := Real.exp_pos w
    have hden : 0 < 1 + Real.exp w := by linarith
    have hfrac0 : 0 ≤ Real.exp w / (1 + Real.exp w) := by positivity
    have hfrac1 : Real.exp w / (1 + Real.exp w) ≤ 1 := by
      rw [div_le_one hden]
      linarith
    have e2 : selfPlaySigmoidFn target z
        = -1 * (Real.exp w / (1 + Real.exp w)) + 1 := rfl
    rw [e2]
    constructor <;> linarith
  · by_cases hc : thresh ≠ 0 ∧ timeline - timeline / thresh * y > 1
    · rw [selfPlayLinearFn, if_pos hc]
      norm_num
    · rw [selfPlayLinearFn, if_neg hc]
      have e3 : -1 * (y - thresh) * 1 / (timeline - thresh) + 1
          = 1 - (y - thresh) / (timeline - thresh) := by ring
      have hq : 0 ≤ (y - thresh) / (timeline - thresh) :=
        div_nonneg (by linarith) (by linarith)
      rw [e3]
      exact ⟨le_max_right _ _, max_le (by linarith) (by norm_num)⟩

/-- Witness for C3 at horizon 100, timestep 5, thresholds `(2, 10)`,
timestep 3, target 5, performance 1. -/
theorem claim_C3_witness :
    (0 ≤ rewShapingFn 100 5 ∧ rewShapingFn 100 5 ≤ 1) ∧
    (0 ≤ selfPlaySigmoidFn 5 1 ∧ selfPlaySigmoidFn 5 1 ≤ 1) ∧
    (0 ≤ selfPlayLinearFn 2 10 3 ∧ selfPlayLinearFn 2 10 3 ≤ 1) :=
  claim_C3_schedule_bounds 100 5 (by norm_num) (by norm_num) 2 10 3
    (by norm_num) (by norm_num) 5 1

/-! ## Model selection and early stopping (ppo2.py lines 99-102, 143,
217, 269-324, 484-488)

Reward trackers are initialised to `-np.Inf` (lines 99-101); we model a
possibly `-inf` float as `Option ℚ`, with `none` standing for `-inf`.
The per-update inputs that the loop reads from its collaborators (the
smoothed sparse training reward, the validation reward returned by the
validation games, and the environment's current self-play ratio) are
modelled as an oracle function of the update index. -/

/-- The configuration fields of `additional_params` (and the keyword
arguments of `learn`) that the model-selection logic reads. -/
structure PPOConfig where
  runTypeOk : Bool
  saveBestTrain : Bool
  saveBestValidation : Bool
  otherAgentNeedsSelfPlay : Bool
  spHorizonNonzero : Bool
  valFreq : ℕ
  stoppingStagnantUpdates : ℕ
  logInterval : ℕ
  earlyStopping : Bool
deriving DecidableEq, Repr

/-- The values `learn` observes during one update: `ep_sparse_rew_mean`,
the validation reward `val_rew`, and `env.self_play_randomization`. -/
structure UpdateIn where
  epSparseRewMean : ℚ
  valRew : ℚ
  selfPlayRand : ℚ
deriving DecidableEq, Repr

/-- The mutable model-selection state of `learn` (lines 99-102). -/
structure SelState where
  bestTrainRew : Option ℚ
  bestValRew : Option ℚ
  signifBestValRew : Option ℚ
  countValStagnation : ℕ
deriving DecidableEq, Repr

/-- Lines 99-102: all three trackers start at `-inf`, the counter at 0. -/
def initSelState : SelState := ⟨none, none, none, 0⟩

/-- The float comparison `v > cur` where `cur` may be `-inf`. -/
def gtNegInf (v : ℚ) : Option ℚ → Bool
  | none => true
  | some w => decide (v > w)

/-- The float `max(v, cur)` where `cur` may be `-inf`. -/
def maxNegInf (v : ℚ) : Option ℚ → ℚ
  | none => v
  | some w => max v w

/-- The comparison `v > 1.1 * cur` of line 313, where `cur` may be
`-inf` (then `1.1 * cur = -inf` and the comparison holds). -/
def gtElevenTenths (v : ℚ) : Option ℚ → Bool
  | none => true
  | some w => decide (v > 11 / 10 * w)

/-- The logging cadence (line 217):
`update % log_interval == 0 or update == 1`. -/
def logGuard (cfg : PPOConfig) (u : ℕ) : Bool :=
  decide (u % cfg.logInterval = 0) || decide (u = 1)

/-- Lines 269-284: the best-train tracker after one logging-interval
update.  It changes only when the run type and checkpoint list allow it,
the new smoothed sparse reward beats the tracker, and the agent is not
mid self-play against a TOM or behaviour-cloned opponent; then it
becomes `max(ep_sparse_rew_mean, best_train_rew)`. -/
def bestTrainStep (cfg : PPOConfig) (inp : UpdateIn) (cur : Option ℚ) :
    Option ℚ :=
  if cfg.runTypeOk && cfg.saveBestTrain then
    if gtNegInf inp.epSparseRewMean cur then
      if cfg.otherAgentNeedsSelfPlay && cfg.spHorizonNonzero &&
          decide (inp.selfPlayRand > 0) then cur
      else some (maxNegInf inp.epSparseRewMean cur)
    else cur
  else cur

/-- Lines 217 and 287-290: the full execution condition of the
validation-play model-selection block, including the enclosing logging
guard: run type allows it, `best_validation` is among the checkpoints to
save, the update index is a multiple of `VAL_FREQ`, a nonzero self-play
horizon is configured, and the self-play ratio is exactly 0. -/
def validationGuard (cfg : PPOConfig) (inp : UpdateIn) (u : ℕ) : Bool :=
  logGuard cfg u && cfg.runTypeOk && cfg.saveBestValidation &&
    decide (u % cfg.valFreq = 0) && cfg.spHorizonNonzero &&
    decide (inp.selfPlayRand = 0)

/-- Lines 292-324: the validation-play step.  The best-validation
tracker is overwritten on improvement; the significant-best tracker is
overwritten (and the stagnation counter reset) when the validation
reward beats it by 10%, else the counter is incremented and the loop
breaks once it reaches `STOPPING_STAGNANT_UPDATES`.  The Bool result
signals the break. -/
def valStep (cfg : PPOConfig) (inp : UpdateIn) (s : SelState) :
    SelState × Bool :=
  let bv := if gtNegInf inp.valRew s.bestValRew then some inp.valRew
            else s.bestValRew
  if gtElevenTenths inp.valRew s.signifBestValRew then
    ({ s with bestValRew := bv, signifBestValRew := some inp.valRew,
              countValStagnation := 0 }, false)
  else
    let c := s.countValStagnation + 1
    ({ s with bestValRew := bv, countValStagnation := c },
      decide (c ≥ cfg.stoppingStagnantUpdates))

/-- One update's effect on the model-selection state (the body of the
`for update in …` loop restricted to that state), with the Bool
signalling the stagnation break of line 324. -/
def updateStep (cfg : PPOConfig) (inp : UpdateIn) (u : ℕ) (s : SelState) :
    SelState × Bool :=
  if logGuard cfg u then
    let s1 : SelState := { s with bestTrainRew := bestTrainStep cfg inp s.bestTrainRew }
    if validationGuard cfg inp u then valStep cfg inp s1 else (s1, false)
  else (s, false)

/-- Which model object `learn` returns (lines 484-488): the best
reward-per-step checkpoint is reloaded exactly when at least one update
was scheduled and `early_stopping` is set; otherwise the last-trained
model is returned. -/
inductive ReturnedModel where
  | lastTrained : ReturnedModel
  | bestCheckpoint : ReturnedModel
deriving DecidableEq, Repr

/-- Outcome of a whole `learn` run, restricted to the model-selection
state: final state, number of loop iterations executed, whether the
stagnation break fired, and which model is returned. -/
structure RunResult where
  final : SelState
  executed : ℕ
  stoppedByStagnation : Bool
  returned : ReturnedModel
deriving DecidableEq, Repr

/-- The training loop over a list of update indices: each iteration runs
`updateStep`; a break ends the run immediately with no further
iterations. -/
def runUpdates (cfg : PPOConfig) (oracle : ℕ → UpdateIn) :
    List ℕ → SelState → SelState × ℕ × Bool
  | [], s => (s, 0, false)
  | u :: rest, s =>
    let r := updateStep cfg (oracle u) u s
    if r.2 then (r.1, 1, true)
    else
      let q := runUpdates cfg oracle rest r.1
      (q.1, q.2.1 + 1, q.2.2)

/-- The whole run (lines 141-143, 484-488): `nupdates` is
`total_timesteps // nbatch`, the loop runs over `range(1, nupdates+1)`,
and at the end the best checkpoint is reloaded iff `nupdates > 0` and
`early_stopping`. -/
def learnRun (cfg : PPOConfig) (oracle : ℕ → UpdateIn)
    (nenvs nsteps totalTimesteps : ℕ) : RunResult :=
  let nbatch := nenvs * nsteps
  let nupdates := totalTimesteps / nbatch
  let r := runUpdates cfg oracle (List.range' 1 nupdates) initSelState
  { final := r.1, executed := r.2.1, stoppedByStagnation := r.2.2,
    returned :=
      if 0 < nupdates ∧ cfg.earlyStopping then ReturnedModel.bestCheckpoint
      else ReturnedModel.lastTrained }

/-- Folding the per-update state transition over a list of updates,
ignoring break signals (used to describe intermediate loop states). -/
def foldState (cfg : PPOConfig) (oracle : ℕ → UpdateIn)
    (l : List ℕ) (s : SelState) : SelState :=
  l.foldl (fun s u => (updateStep cfg (oracle u) u s).1) s

/-- The model-selection state after the first `k` updates. -/
def stateAfter (cfg : PPOConfig) (oracle : ℕ → UpdateIn) (k : ℕ) : SelState :=
  foldState cfg oracle (List.range' 1 k) initSelState

/-- Whether the stagnation break fires at update `u`, given the state
reached after updates `1 … u-1`. -/
def brkAt (cfg : PPOConfig) (oracle : ℕ → UpdateIn) (u : ℕ) : Bool :=
  (updateStep cfg (oracle u) u (stateAfter cfg oracle (u - 1))).2

/-- Whether any break fires while folding over a list of updates. -/
def anyBreak (cfg : PPOConfig) (oracle : ℕ → UpdateIn) :
    List ℕ → SelState → Bool
  | [], _ => false
  | u :: rest, s =>
    let r := updateStep cfg (oracle u) u s
    r.2 || anyBreak cfg oracle rest r.1

/-- If no break fires, the loop executes every scheduled update. -/
theorem runUpdates_no_break (cfg : PPOConfig) (oracle : ℕ → UpdateIn) :
    ∀ (l : List ℕ) (s : SelState),
      (runUpdates cfg oracle l s).2.2 = false →
      (runUpdates cfg oracle l s).2.1 = l.length := by
  intro l
  induction l with
  | nil => intro s _; rfl
  | cons u rest ih =>
    intro s h
    by_cases hb : (updateStep cfg (oracle u) u s).2 = true
    · simp [runUpdates, hb] at h
    · simp only [Bool.not_eq_true] at hb
      simp only [runUpdates, hb, Bool.false_eq_true, if_false, List.length_cons] at h ⊢
      rw [ih _ h]

/-- If the fold over a prefix fires no break and the next update fires
one, the loop executes exactly the prefix plus that update and stops. -/
theorem runUpdates_break_after (cfg : PPOConfig) (oracle : ℕ → UpdateIn) :
    ∀ (l₁ : List ℕ) (u : ℕ) (l₂ : List ℕ) (s : SelState),
      anyBreak cfg oracle l₁ s = false →
      (updateStep cfg (oracle u) u (foldState cfg oracle l₁ s)).2 = true →
      runUpdates cfg oracle (l₁ ++ u :: l₂) s
        = ((updateStep cfg (oracle u) u (foldState cfg oracle l₁ s)).1,
            l₁.length + 1, true) := by
  intro l₁
  induction l₁ with
  | nil =>
    intro u l₂ s _ hbk
    simp only [foldState, List.foldl_nil] at hbk
    simp only [List.nil_append, runUpdates, hbk, if_true, List.length_nil,
      foldState, List.foldl_nil]
  | cons v rest ih =>
    intro u l₂ s hnb hbk
    by_cases hv : (updateStep cfg (oracle v) v s).2 = true
    · exfalso
      simp [anyBreak, hv] at hnb
    · simp only [Bool.not_eq_true] at hv
      have hrest : anyBreak cfg oracle rest
          ((updateStep cfg (oracle v) v s).1) = false := by
        simpa [anyBreak, hv] using hnb
      have hfold : foldState cfg oracle (v :: rest) s
          = foldState cfg oracle rest ((updateStep cfg (oracle v) v s).1) := by
        simp [foldState]
      rw [hfold] at hbk ⊢
      have ht := ih u l₂ ((updateStep cfg (oracle v) v s).1) hrest hbk
      show runUpdates cfg oracle (v :: (rest ++ u :: l₂)) s = _
      simp only [runUpdates, hv, Bool.false_eq_true, if_false, ht,
        List.length_cons]

/-- A configuration in which the validation model-selection machinery is
fully disabled, so no early-stop signal can ever fire. -/
def cfgQuiet : PPOConfig :=
  { runTypeOk := false, saveBestTrain := false, saveBestValidation := false,
    otherAgentNeedsSelfPlay := false, spHorizonNonzero := false,
    valFreq := 1, stoppingStagnantUpdates := 1, logInterval := 10,
    earlyStopping := false }

/-- A constant oracle: zero rewards, self-play fully phased out. -/
def oracleQuiet : ℕ → UpdateIn := fun _ => ⟨0, 0, 0⟩

/-- C7: absent an early-stop signal, the training loop performs exactly
`total_timesteps / (nenvs * nsteps)` updates, and in particular with
`nenvs = 2`, `nsteps = 4`, `total_timesteps = 8` it performs exactly 1. -/
theorem claim_C7_update_count (cfg : PPOConfig) (oracle : ℕ → UpdateIn)
    (nenvs nsteps totalTimesteps : ℕ)
    (h : (learnRun cfg oracle nenvs nsteps totalTimesteps).stoppedByStagnation
      = false) :
    (learnRun cfg oracle nenvs nsteps totalTimesteps).executed
      = totalTimesteps / (nenvs * nsteps) ∧
    (learnRun cfgQuiet oracleQuiet 2 4 8).executed = 1 := by
  constructor
  · have h2 : (runUpdates cfg oracle
        (List.range' 1 (totalTimesteps / (nenvs * nsteps))) initSelState).2.2
        = false := h
    have := runUpdates_no_break cfg oracle
      (List.range' 1 (totalTimesteps / (nenvs * nsteps))) initSelState h2
    simpa [learnRun] using this
  · decide

/-- Witness for C7: the disabled-validation run with `nenvs = 2`,
`nsteps = 4`, `total_timesteps = 8` stops by exhaustion, not stagnation,
and executes `8 / 8 = 1` update. -/
theorem claim_C7_witness :
    (learnRun cfgQuiet oracleQuiet 2 4 8).executed = 8 / (2 * 4) ∧
    (learnRun cfgQuiet oracleQuiet 2 4 8).executed = 1 :=
  claim_C7_update_count cfgQuiet oracleQuiet 2 4 8 (by decide)

/-- C2 (amended): if the stagnation break fires at qualifying update `u`
(the state folded over updates `1 … u-1` fires no break, and at `u` the
incremented stagnation counter reaches `STOPPING_STAGNANT_UPDATES`),
then the loop terminates exactly at update `u` — no further updates run
— and the returned model is the previously best-checkpointed model when
`early_stopping` is engaged, but the last-trained model otherwise. -/
theorem claim_C2_stagnation_stop (cfg : PPOConfig) (oracle : ℕ → UpdateIn)
    (nenvs nsteps totalTimesteps u : ℕ)
    (h1 : 1 ≤ u) (h2 : u ≤ totalTimesteps / (nenvs * nsteps))
    (hnb : anyBreak cfg oracle (List.range' 1 (u - 1)) initSelState = false)
    (hbk : brkAt cfg oracle u = true) :
    (learnRun cfg oracle nenvs nsteps totalTimesteps).executed = u ∧
    (learnRun cfg oracle nenvs nsteps totalTimesteps).stoppedByStagnation
      = true ∧
    (learnRun cfg oracle nenvs nsteps totalTimesteps).returned
      = (if cfg.earlyStopping then ReturnedModel.bestCheckpoint
          else ReturnedModel.lastTrained) := by
  have hnup : 0 < totalTimesteps / (nenvs * nsteps) := lt_of_lt_of_le h1 h2
  have hsplit : List.range' 1 (totalTimesteps / (nenvs * nsteps))
      = List.range' 1 (u - 1)
        ++ u :: List.range' (u + 1) (totalTimesteps / (nenvs * nsteps) - u) := by
    have e1 : u :: List.range' (u + 1) (totalTimesteps / (nenvs * nsteps) - u)
        = List.range' u (totalTimesteps / (nenvs * nsteps) - u + 1) := by
      rw [List.range'_succ]
    rw [e1]
    have h := List.range'_append_1 1 (u - 1)
      (totalTimesteps / (nenvs * nsteps) - u + 1)
    have e2 : 1 + (u - 1) = u := by omega
    have e3 : totalTimesteps / (nenvs * nsteps) - u + 1 + (u - 1)
        = totalTimesteps / (nenvs * nsteps) := by omega
    rw [e2, e3] at h
    exact h.symm
  unfold brkAt stateAfter at hbk
  have hrun := runUpdates_break_after cfg oracle (List.range' 1 (u - 1)) u
    (List.range' (u + 1) (totalTimesteps / (nenvs * nsteps) - u))
    initSelState hnb hbk
  refine ⟨?_, ?_, ?_⟩
  · show (runUpdates cfg oracle
      (List.range' 1 (totalTimesteps / (nenvs * nsteps))) initSelState).2.1 = u
    rw [hsplit, hrun]
    simp only [List.length_range']
    omega
  · show (runUpdates cfg oracle
      (List.range' 1 (totalTimesteps / (nenvs * nsteps))) initSelState).2.2 = true
    rw [hsplit, hrun]
  · show (if 0 < totalTimesteps / (nenvs * nsteps) ∧ cfg.earlyStopping
      then ReturnedModel.bestCheckpoint else ReturnedModel.lastTrained)
      = (if cfg.earlyStopping then ReturnedModel.bestCheckpoint
          else ReturnedModel.lastTrained)
    cases hes : cfg.earlyStopping <;> simp [hnup, hes]

/-- A validation-selection configuration with stagnation threshold 1 and
`early_stopping = False`. -/
def cfgStagnation : PPOConfig :=
  { runTypeOk := true, saveBestTrain := false, saveBestValidation := true,
    otherAgentNeedsSelfPlay := false, spHorizonNonzero := true,
    valFreq := 1, stoppingStagnantUpdates := 1, logInterval := 1,
    earlyStopping := false }

/-- The same configuration with `early_stopping = True`. -/
def cfgStagnationES : PPOConfig :=
  { cfgStagnation with earlyStopping := true }

/-- An oracle whose validation reward is stuck at 5: update 1 sets the
significant best to 5, and every later qualifying update stagnates. -/
def oracleStagnant : ℕ → UpdateIn := fun _ => ⟨0, 5, 0⟩

/-- C2 counterexample: with validation model selection active
(`cfgStagnation`) but `early_stopping = False`, the stagnation break
fires at update 2 of 5 and the run nevertheless returns the
last-trained model, not a previously best-checkpointed one. -/
theorem claim_C2_counterexample :
    (learnRun cfgStagnation oracleStagnant 1 1 5).stoppedByStagnation
      = true ∧
    (learnRun cfgStagnation oracleStagnant 1 1 5).executed = 2 ∧
    (learnRun cfgStagnation oracleStagnant 1 1 5).returned
      = ReturnedModel.lastTrained := by
  have e1 : updateStep cfgStagnation (oracleStagnant 1) 1 initSelState
      = (⟨none, some 5, some 5, 0⟩, false) := by
    norm_num [updateStep, logGuard, validationGuard, valStep, bestTrainStep,
      gtNegInf, gtElevenTenths, cfgStagnation, oracleStagnant, initSelState]
  have e2 : updateStep cfgStagnation (oracleStagnant 2) 2
      (⟨none, some 5, some 5, 0⟩ : SelState)
      = (⟨none, some 5, some 5, 1⟩, true) := by
    norm_num [updateStep, logGuard, validationGuard, valStep, bestTrainStep,
      gtNegInf, gtElevenTenths, cfgStagnation, oracleStagnant]
  have hrun : runUpdates cfgStagnation oracleStagnant [1, 2, 3, 4, 5]
      initSelState = (⟨none, some 5, some 5, 1⟩, 2, true) := by
    simp [runUpdates, e1, e2]
  have hlist : List.range' 1 (5 / (1 * 1)) = [1, 2, 3, 4, 5] := rfl
  refine ⟨?_, ?_, ?_⟩
  · simp [learnRun, hlist, hrun]
  · simp [learnRun, hlist, hrun]
  · simp [learnRun, cfgStagnation]

/-- Witness for C2: the same stagnating run with `early_stopping = True`
stops at update 2 of 5 and returns the best checkpoint. -/
theorem claim_C2_witness :
    (learnRun cfgStagnationES oracleStagnant 1 1 5).executed = 2 ∧
    (learnRun cfgStagnationES oracleStagnant 1 1 5).stoppedByStagnation
      = true ∧
    (learnRun cfgStagnationES oracleStagnant 1 1 5).returned
      = (if cfgStagnationES.earlyStopping then ReturnedModel.bestCheckpoint
          else ReturnedModel.lastTrained) :=
  claim_C2_stagnation_stop cfgStagnationES oracleStagnant 1 1 5 2
    (by norm_num) (by norm_num)
    (by
      norm_num [anyBreak, updateStep, logGuard, validationGuard, valStep,
        bestTrainStep, gtNegInf, gtElevenTenths, cfgStagnationES,
        cfgStagnation, oracleStagnant, initSelState, List.range'])
    (by
      norm_num [brkAt, stateAfter, foldState, updateStep, logGuard,
        validationGuard, valStep, bestTrainStep, gtNegInf, gtElevenTenths,
        cfgStagnationES, cfgStagnation, oracleStagnant, initSelState,
        List.range'])

/-- Order on possibly `-inf` float trackers: `-inf` is below everything,
finite values compare as rationals. -/
def oleq : Option ℚ → Option ℚ → Bool
  | none, _ => true
  | some _, none => false
  | some a, some b => decide (a ≤ b)

theorem oleq_refl (a : Option ℚ) : oleq a a = true := by
  cases a <;> simp [oleq]

/-- The best-train tracker never decreases in one step. -/
theorem bestTrainStep_mono (cfg : PPOConfig) (inp : UpdateIn)
    (cur : Option ℚ) : oleq cur (bestTrainStep cfg inp cur) = true := by
  unfold bestTrainStep
  split
  · split
    · split
      · exact oleq_refl cur
      · cases cur with
        | none => rfl
        | some w => simp [oleq, maxNegInf]
    · exact oleq_refl cur
  · exact oleq_refl cur

/-- C5 (amended): over every single loop update, from every reachable
state and for every observed input (including negative rewards), the
`best_train_rew` and `best_val_rew` trackers never decrease; the
`signif_best_val_rew` tracker never decreases from a nonnegative value,
but — per the counterexample — it can decrease while its current value
is negative, because a validation reward strictly between `1.1 * s` and
`s < 0` overwrites it downward. -/
theorem claim_C5_tracker_monotonicity (cfg : PPOConfig) (inp : UpdateIn)
    (u : ℕ) (s : SelState) :
    oleq s.bestTrainRew ((updateStep cfg inp u s).1.bestTrainRew) = true ∧
    oleq s.bestValRew ((updateStep cfg inp u s).1.bestValRew) = true ∧
    (∀ q : ℚ, s.signifBestValRew = some q → 0 ≤ q →
      oleq s.signifBestValRew
        ((updateStep cfg inp u s).1.signifBestValRew) = true) := by
  unfold updateStep
  by_cases hl : logGuard cfg u
  · simp only [hl, if_true]
    by_cases hv : validationGuard cfg inp u
    · simp only [hv, if_true]
      unfold valStep
      by_cases hsig : gtElevenTenths inp.valRew s.signifBestValRew = true
      · simp only [hsig, if_true]
        refine ⟨bestTrainStep_mono cfg inp s.bestTrainRew, ?_, ?_⟩
        · by_cases hbv : gtNegInf inp.valRew s.bestValRew = true
          · simp only [hbv, if_true]
            cases hc : s.bestValRew with
            | none => rfl
            | some w =>
              rw [hc] at hbv
              simp only [gtNegInf, decide_eq_true_eq] at hbv
              simp [oleq, le_of_lt hbv]
          · simp only [Bool.not_eq_true] at hbv
            simp only [hbv, Bool.false_eq_true, if_false]
            exact oleq_refl s.bestValRew
        · intro q hq hq0
          rw [hq] at hsig ⊢
          simp only [gtElevenTenths, decide_eq_true_eq] at hsig
          have hqv : q ≤ inp.valRew := by nlinarith
          simp [oleq, hqv]
      · simp only [Bool.not_eq_true] at hsig
        simp only [hsig, Bool.false_eq_true, if_false]
        refine ⟨bestTrainStep_mono cfg inp s.bestTrainRew, ?_, ?_⟩
        · by_cases hbv : gtNegInf inp.valRew s.bestValRew = true
          · simp only [hbv, if_true]
            cases hc : s.bestValRew with
            | none => rfl
            | some w =>
              rw [hc] at hbv
              simp only [gtNegInf, decide_eq_true_eq] at hbv
              simp [oleq, le_of_lt hbv]
          · simp only [Bool.not_eq_true] at hbv
            simp only [hbv, Bool.false_eq_true, if_false]
            exact oleq_refl s.bestValRew
        · intro q hq _
          rw [hq]
          exact oleq_refl (some q)
    · simp only [hv, Bool.false_eq_true, if_false]
      refine ⟨bestTrainStep_mono cfg inp s.bestTrainRew, oleq_refl _, ?_⟩
      intro q hq _
      rw [hq]
      exact oleq_refl (some q)
  · simp only [hl, Bool.false_eq_true, if_false]
    refine ⟨oleq_refl _, oleq_refl _, ?_⟩
    intro q hq _
    rw [hq]
    exact oleq_refl (some q)

/-- A validation-selection configuration that never stops (large
stagnation threshold), used to exhibit reachable states. -/
def cfgVal : PPOConfig :=
  { runTypeOk := true, saveBestTrain := false, saveBestValidation := true,
    otherAgentNeedsSelfPlay := false, spHorizonNonzero := true,
    valFreq := 1, stoppingStagnantUpdates := 99, logInterval := 1,
    earlyStopping := false }

/-- Validation rewards `-10` at update 1, then `-21/2 = -10.5`. -/
def oracleNeg : ℕ → UpdateIn :=
  fun u => ⟨0, if u = 1 then -10 else -(21 / 2), 0⟩

/-- C5 counterexample: with negative validation rewards the
`signif_best_val_rew` tracker decreases.  After update 1 it is `-10`;
update 2 observes `-10.5 > 1.1 * (-10) = -11`, so the tracker is
overwritten with the smaller value `-10.5`. -/
theorem claim_C5_counterexample :
    (stateAfter cfgVal oracleNeg 1).signifBestValRew = some (-10 : ℚ) ∧
    (stateAfter cfgVal oracleNeg 2).signifBestValRew
      = some (-(21 / 2) : ℚ) ∧
    oleq (some (-10 : ℚ)) (some (-(21 / 2) : ℚ)) = false := by
  have e1 : updateStep cfgVal (oracleNeg 1) 1 initSelState
      = (⟨none, some (-10), some (-10), 0⟩, false) := by
    norm_num [updateStep, logGuard, validationGuard, valStep, bestTrainStep,
      gtNegInf, gtElevenTenths, cfgVal, oracleNeg, initSelState]
  have e2 : updateStep cfgVal (oracleNeg 2) 2
      (⟨none, some (-10), some (-10), 0⟩ : SelState)
      = (⟨none, some (-10), some (-(21 / 2)), 0⟩, false) := by
    norm_num [updateStep, logGuard, validationGuard, valStep, bestTrainStep,
      gtNegInf, gtElevenTenths, cfgVal, oracleNeg]
  have h1 : stateAfter cfgVal oracleNeg 1 = ⟨none, some (-10), some (-10), 0⟩ := by
    show foldState cfgVal oracleNeg (List.range' 1 1) initSelState = _
    simp [foldState, List.range', e1]
  have h2 : stateAfter cfgVal oracleNeg 2
      = ⟨none, some (-10), some (-(21 / 2)), 0⟩ := by
    show foldState cfgVal oracleNeg (List.range' 1 2) initSelState = _
    simp [foldState, List.range', e1, e2]
  refine ⟨by rw [h1], by rw [h2], ?_⟩
  norm_num [oleq]

/-- Witness for C5 at a concrete configuration, input and state with a
nonnegative significant-best tracker. -/
theorem claim_C5_witness :
    oleq (⟨some 1, some 2, some 3, 0⟩ : SelState).bestTrainRew
      ((updateStep cfgVal ⟨4, 5, 0⟩ 1
        ⟨some 1, some 2, some 3, 0⟩).1.bestTrainRew) = true ∧
    oleq (⟨some 1, some 2, some 3, 0⟩ : SelState).bestValRew
      ((updateStep cfgVal ⟨4, 5, 0⟩ 1
        ⟨some 1, some 2, some 3, 0⟩).1.bestValRew) = true ∧
    oleq (some (3 : ℚ))
      ((updateStep cfgVal ⟨4, 5, 0⟩ 1
        ⟨some 1, some 2, some 3, 0⟩).1.signifBestValRew) = true := by
  have h := claim_C5_tracker_monotonicity cfgVal ⟨4, 5, 0⟩ 1
    ⟨some 1, some 2, some 3, 0⟩
  exact ⟨h.1, h.2.1, h.2.2 3 rfl (by norm_num)⟩

/-- C6: the validation-play model-selection step is gated exactly as the
spec states: whenever its guard holds, the self-play ratio is 0, the
update index is a multiple of `VAL_FREQ`, validation checkpointing is
enabled, a nonzero self-play horizon is configured, and the update is on
the logging cadence; and whenever the self-play ratio is positive, the
guard is false and one update leaves the validation trackers and the
stagnation counter untouched and fires no break. -/
theorem claim_C6_validation_gating (cfg : PPOConfig) (inp : UpdateIn)
    (u : ℕ) (s : SelState) :
    (validationGuard cfg inp u = true →
      inp.selfPlayRand = 0 ∧ u % cfg.valFreq = 0 ∧
      cfg.saveBestValidation = true ∧ cfg.runTypeOk = true ∧
      cfg.spHorizonNonzero = true ∧ logGuard cfg u = true) ∧
    (0 < inp.selfPlayRand →
      validationGuard cfg inp u = false ∧
      (updateStep cfg inp u s).1.bestValRew = s.bestValRew ∧
      (updateStep cfg inp u s).1.signifBestValRew = s.signifBestValRew ∧
      (updateStep cfg inp u s).1.countValStagnation = s.countValStagnation ∧
      (updateStep cfg inp u s).2 = false) := by
  constructor
  · intro h
    simp only [validationGuard, Bool.and_eq_true, decide_eq_true_eq] at h
    tauto
  · intro hpos
    have hz : ¬ inp.selfPlayRand = 0 := by
      intro h0
      rw [h0] at hpos
      exact lt_irrefl 0 hpos
    have hg : validationGuard cfg inp u = false := by
      simp [validationGuard, hz]
    refine ⟨hg, ?_⟩
    unfold updateStep
    by_cases hl : logGuard cfg u
    · simp [hl, hg]
    · simp [hl]

/-- Witness for C6 at a concrete guard-true instance and a concrete
positive self-play ratio. -/
theorem claim_C6_witness :
    ((⟨0, 0, 0⟩ : UpdateIn).selfPlayRand = 0 ∧ 3 % cfgVal.valFreq = 0 ∧
      cfgVal.saveBestValidation = true ∧ cfgVal.runTypeOk = true ∧
      cfgVal.spHorizonNonzero = true ∧ logGuard cfgVal 3 = true) ∧
    (validationGuard cfgVal ⟨0, 0, 1⟩ 3 = false ∧
      (updateStep cfgVal ⟨0, 0, 1⟩ 3 initSelState).1.bestValRew
        = initSelState.bestValRew ∧
      (updateStep cfgVal ⟨0, 0, 1⟩ 3 initSelState).1.signifBestValRew
        = initSelState.signifBestValRew ∧
      (updateStep cfgVal ⟨0, 0, 1⟩ 3 initSelState).1.countValStagnation
        = initSelState.countValStagnation ∧
      (updateStep cfgVal ⟨0, 0, 1⟩ 3 initSelState).2 = false) :=
  ⟨(claim_C6_validation_gating cfgVal ⟨0, 0, 0⟩ 3 initSelState).1
      (by norm_num [validationGuard, logGuard, cfgVal]),
    (claim_C6_validation_gating cfgVal ⟨0, 0, 1⟩ 3 initSelState).2
      (by norm_num)⟩

/-! ## Order of events around the batch-divisibility check (ppo2.py
lines 111-127, 141-147, 156, 185-208, 406-411)

`learn` builds the model (line 119) and the runner (line 127), computes
`nupdates = total_timesteps // nbatch` (line 141), and then, at the top
of every loop iteration and before `runner.run()` (line 156), asserts
`nbatch % nminibatches == 0` (line 147).  A failed assertion aborts the
run.  The runner's construction is modelled from the spec: §4.1 gives
the rollout collector a single `collect` operation as its only
environment-mutating capability, so constructing it is an inert
allocation and every environment interaction of the loop is a rollout. -/

/-- The externally visible events of a `learn` run, in order. -/
inductive Event where
  | modelConstruct : Event
  | runnerConstruct : Event
  | configAbort : Event
  | envRollout (u : ℕ) : Event
  | optimEpoch (u e : ℕ) : Event
  | checkpointSave (u : ℕ) : Event
deriving DecidableEq, Repr

/-- The events of one loop iteration (lines 143-208): the divisibility
assertion fires first; otherwise the rollout runs and then the
optimisation epochs.  The Bool flags an abort. -/
def updateEvents (nbatch nminibatches noptepochs u : ℕ) :
    List Event × Bool :=
  if nbatch % nminibatches ≠ 0 then ([Event.configAbort], true)
  else (Event.envRollout u :: (List.range noptepochs).map (Event.optimEpoch u),
    false)

/-- The loop over the scheduled update indices, stopping at an abort. -/
def loopEvents (nbatch nminibatches noptepochs : ℕ) : List ℕ → List Event
  | [] => []
  | u :: rest =>
    let r := updateEvents nbatch nminibatches noptepochs u
    if r.2 then r.1
    else r.1 ++ loopEvents nbatch nminibatches noptepochs rest

/-- The event trace of a whole `learn` call: model construction, runner
construction, then the loop over `range(1, nupdates + 1)`. -/
def learnEvents (nenvs nsteps nminibatches noptepochs totalTimesteps : ℕ) :
    List Event :=
  Event.modelConstruct :: Event.runnerConstruct ::
    loopEvents (nenvs * nsteps) nminibatches noptepochs
      (List.range' 1 (totalTimesteps / (nenvs * nsteps)))

/-- C8: whenever `nbatch = nenvs * nsteps` is not divisible by
`nminibatches` and at least one update is scheduled, the run aborts with
the configuration error before any optimisation epoch and before any
environment rollout or checkpoint save: the whole trace is model
construction, runner construction, abort. -/
theorem claim_C8_config_error_aborts_early
    (nenvs nsteps nminibatches noptepochs totalTimesteps : ℕ)
    (hmod : nenvs * nsteps % nminibatches ≠ 0)
    (hupd : 1 ≤ totalTimesteps / (nenvs * nsteps)) :
    learnEvents nenvs nsteps nminibatches noptepochs totalTimesteps
      = [Event.modelConstruct, Event.runnerConstruct, Event.configAbort] ∧
    (∀ u, Event.envRollout u
      ∉ learnEvents nenvs nsteps nminibatches noptepochs totalTimesteps) ∧
    (∀ u e, Event.optimEpoch u e
      ∉ learnEvents nenvs nsteps nminibatches noptepochs totalTimesteps) ∧
    (∀ u, Event.checkpointSave u
      ∉ learnEvents nenvs nsteps nminibatches noptepochs totalTimesteps) := by
  have hsplit : List.range' 1 (totalTimesteps / (nenvs * nsteps))
      = 1 :: List.range' 2 (totalTimesteps / (nenvs * nsteps) - 1) := by
    have e1 : totalTimesteps / (nenvs * nsteps)
        = totalTimesteps / (nenvs * nsteps) - 1 + 1 := by omega
    rw [e1, List.range'_succ]
    simp
  have htr : learnEvents nenvs nsteps nminibatches noptepochs totalTimesteps
      = [Event.modelConstruct, Event.runnerConstruct, Event.configAbort] := by
    unfold learnEvents
    rw [hsplit]
    simp [loopEvents, updateEvents, hmod]
  refine ⟨htr, ?_, ?_, ?_⟩
  · intro u
    rw [htr]
    simp
  · intro u e
    rw [htr]
    simp
  · intro u
    rw [htr]
    simp

/-- Witness for C8: `nenvs = 1`, `nsteps = 3`, `nminibatches = 2`,
`noptepochs = 4`, `total_timesteps = 3` — one update scheduled,
`3 % 2 ≠ 0`. -/
theorem claim_C8_witness :
    learnEvents 1 3 2 4 3
      = [Event.modelConstruct, Event.runnerConstruct, Event.configAbort] ∧
    Event.envRollout 1 ∉ learnEvents 1 3 2 4 3 ∧
    Event.optimEpoch 1 0 ∉ learnEvents 1 3 2 4 3 ∧
    Event.checkpointSave 1 ∉ learnEvents 1 3 2 4 3 :=
  have h := claim_C8_config_error_aborts_early 1 3 2 4 3 (by decide) (by decide)
  ⟨h.1, h.2.1 1, h.2.2.1 1 0, h.2.2.2 1⟩

end PPO2
